import Mathlib

/-!
Verification of the ProjectAirsim_Trials rover teleoperation scripts.

The repository contains three keyboard rover-control loops:
* `px4_keyboard_drone_rover.py` — edge-set variant, `ENGINE_STEP = 0.002`,
  `STEER_STEP = 0.05`, no try/except around the per-tick send;
* `px4_keyboard_drone_rover_chase.py` — edge-set variant, `ENGINE_STEP = 0.02`,
  `STEER_STEP = 0.05`, per-tick send wrapped in `try: ... except Exception: pass`;
* `xbox_keyboard_drone_rover.py` — polled single-key variant,
  `ENGINE_STEP = 0.1`, `STEER_STEP = 0.15`.

Actuator values are modelled by exact rationals.  All constants of the
scripts are exactly representable, and on the one scenario the spec makes
an exact numerical claim about (fifty steps of `0.02` reaching `1.0`) the
IEEE-double execution agrees with the rational model because the ramp
clamps with `min(engine + STEP, target)` at every step.
-/

namespace RoverTeleop

/-- Constants of `px4_keyboard_drone_rover.py` (lines 29-34). -/
def ENGINE_STEP_px4 : ℚ := 2 / 1000

/-- STEER_STEP of `px4_keyboard_drone_rover.py`. -/
def STEER_STEP_px4 : ℚ := 5 / 100

/-- ENGINE_STEP of `px4_keyboard_drone_rover_chase.py` (line 300). -/
def ENGINE_STEP_chase : ℚ := 2 / 100

/-- STEER_STEP of `px4_keyboard_drone_rover_chase.py`. -/
def STEER_STEP_chase : ℚ := 5 / 100

/-- ENGINE_STEP of `xbox_keyboard_drone_rover.py` (line 22). -/
def ENGINE_STEP_xbox : ℚ := 1 / 10

/-- STEER_STEP of `xbox_keyboard_drone_rover.py` (line 23). -/
def STEER_STEP_xbox : ℚ := 15 / 100

/-- ENGINE_MIN, shared by all three scripts. -/
def ENGINE_MIN : ℚ := -1

/-- ENGINE_MAX, shared by all three scripts. -/
def ENGINE_MAX : ℚ := 1

/-- STEER_MIN, shared by all three scripts. -/
def STEER_MIN : ℚ := -1

/-- STEER_MAX, shared by all three scripts. -/
def STEER_MAX : ℚ := 1

/-- The keys of `rover_state.keys_pressed` that the edge-set loops inspect
(arrow keys and space; all other members of the set are ignored by the loop
body). -/
structure Keys where
  up : Bool
  down : Bool
  left : Bool
  right : Bool
  space : Bool
deriving DecidableEq, Repr

/-- The three actuator values held by the loop locals `engine`, `steer`,
`brake`. -/
structure Actuators where
  engine : ℚ
  steer : ℚ
  brake : ℚ
deriving DecidableEq, Repr

/-- The neutral initial state `engine = 0.0; steer = 0.0; brake = 0.0` of
every loop. -/
def initActuators : Actuators := ⟨0, 0, 0⟩

/-- Target computation of the edge-set loop bodies
(`px4_keyboard_drone_rover.py` lines 81-104, identical in the chase
variant lines 337-354): `target_engine` from up/down, `target_steer` from
left/right, then space overrides with `new_brake = 1.0`,
`target_engine = 0.0`, `target_steer = 0.0`.  Returns
`(target_engine, target_steer, new_brake)`. -/
def targets (k : Keys) : ℚ × ℚ × ℚ :=
  let te : ℚ := if k.up then 1 else if k.down then -1 else 0
  let ts : ℚ := if k.left then -1 else if k.right then 1 else 0
  if k.space then (0, 0, 1) else (te, ts, 0)

/-- One ramping branch of the loop body
(`if cur < target: cur = min(cur + step, target) elif cur > target:
cur = max(cur - step, target)`). -/
def rampToward (cur target step : ℚ) : ℚ :=
  if cur < target then min (cur + step) target
  else if cur > target then max (cur - step) target
  else cur

/-- Result of one pass of the edge-set loop body: the next actuator state,
the `controls_updated` flag, and whether `set_rover_controls` is called
this tick. -/
structure TickResult where
  state : Actuators
  updated : Bool
  sent : Bool
deriving DecidableEq, Repr

/-- One pass of the edge-set loop body (`px4_keyboard_drone_rover.py`
lines 78-137 / chase lines 336-379): compute targets from held keys, ramp
engine and steering, set brake directly, and send the command when
`controls_updated or abs(engine) > 0.01 or abs(steer) > 0.01`. -/
def edgeTick (estep sstep : ℚ) (a : Actuators) (k : Keys) : TickResult :=
  let t := targets k
  let te := t.1
  let ts := t.2.1
  let nb := t.2.2
  let e1 := rampToward a.engine te estep
  let s1 := rampToward a.steer ts sstep
  let upd := (decide (a.engine < te) || decide (a.engine > te))
    || (decide (a.steer < ts) || decide (a.steer > ts))
    || decide (a.brake ≠ nb)
  let send := upd || decide (|e1| > 1 / 100) || decide (|s1| > 1 / 100)
  ⟨⟨e1, s1, nb⟩, upd, send⟩

/-- Running the edge-set loop body over a list of key snapshots, one
snapshot per tick. -/
def edgeRun (estep sstep : ℚ) (a : Actuators) : List Keys → Actuators
  | [] => a
  | k :: ks => edgeRun estep sstep (edgeTick estep sstep a k).state ks

/-- The commands actually dispatched by `set_rover_controls` while running
the edge-set loop body over a list of key snapshots. -/
def edgeSentCommands (estep sstep : ℚ) (a : Actuators) : List Keys → List Actuators
  | [] => []
  | k :: ks =>
    let r := edgeTick estep sstep a k
    (if r.sent then [r.state] else []) ++ edgeSentCommands estep sstep r.state ks

/-- The bound invariant of the spec data model: `engine ∈ [-1,1]`,
`steering ∈ [-1,1]`, `brake ∈ [0,1]`. -/
def InBounds (a : Actuators) : Prop :=
  -1 ≤ a.engine ∧ a.engine ≤ 1 ∧ -1 ≤ a.steer ∧ a.steer ≤ 1 ∧
    0 ≤ a.brake ∧ a.brake ≤ 1

instance : DecidablePred InBounds := fun a => by
  unfold InBounds; infer_instance

/-- The key snapshot with only the up arrow held. -/
def upOnly : Keys := ⟨true, false, false, false, false⟩

/-- The key snapshot with only space (brake) held. -/
def spaceOnly : Keys := ⟨false, false, false, false, true⟩

/-- Engine value after `n` ticks of the chase-variant edge-set loop with
the up arrow held throughout, starting from the neutral state. -/
def chaseState (n : ℕ) : Actuators :=
  (fun a => (edgeTick ENGINE_STEP_chase STEER_STEP_chase a upOnly).state)^[n]
    initActuators

section Xbox

/-- The keys the polled single-key loop of `xbox_keyboard_drone_rover.py`
distinguishes (lines 54-82); `other` stands for any other buffered key. -/
inductive XKey
  | w | s | a | d | space | zero | q | other
deriving DecidableEq, Repr

/-- State of the polled loop: the three actuator locals plus the `running`
flag. -/
structure XState where
  engine : ℚ
  steer : ℚ
  brake : ℚ
  running : Bool
deriving DecidableEq, Repr

/-- Initial state of the polled loop (`engine = steer = brake = 0.0`,
`running = True`). -/
def initXState : XState := ⟨0, 0, 0, true⟩

/-- One pass of the polled loop body (`xbox_keyboard_drone_rover.py` lines
50-90).  `none` models a tick on which `msvcrt.kbhit()` is false.  The
returned Bool records whether `set_rover_controls` is called this tick
(every buffered key except `q` leads to a send; `q` hits `continue`). -/
def xboxTick (st : XState) : Option XKey → XState × Bool
  | none => (st, false)
  | some k =>
    match k with
    | .w => ({ st with brake := 0, engine := min (st.engine + ENGINE_STEP_xbox) ENGINE_MAX }, true)
    | .s => ({ st with brake := 0, engine := max (st.engine - ENGINE_STEP_xbox) ENGINE_MIN }, true)
    | .a => ({ st with steer := max (st.steer - STEER_STEP_xbox) STEER_MIN }, true)
    | .d => ({ st with steer := min (st.steer + STEER_STEP_xbox) STEER_MAX }, true)
    | .space => ({ st with brake := 1, engine := 0 }, true)
    | .zero => ({ st with brake := 0, steer := 0, engine := 0 }, true)
    | .q => ({ st with running := false }, false)
    | .other => (st, true)

/-- Running the polled loop over a list of per-tick buffered keys; the
loop body only runs `while running`. -/
def xboxRun (st : XState) : List (Option XKey) → XState
  | [] => st
  | k :: ks => if st.running then xboxRun (xboxTick st k).1 ks else st

/-- Bound invariant for the polled loop state. -/
def XInBounds (st : XState) : Prop :=
  -1 ≤ st.engine ∧ st.engine ≤ 1 ∧ -1 ≤ st.steer ∧ st.steer ≤ 1 ∧
    0 ≤ st.brake ∧ st.brake ≤ 1

instance : DecidablePred XInBounds := fun st => by
  unfold XInBounds; infer_instance

end Xbox

section Shutdown

/-- Observable vehicle-facing actions of the scripts (the `rover.*` calls
plus stopping the pynput listener). -/
inductive Act
  | sendControls (engine steer brake : ℚ)
  | disarm
  | disableApiControl
  | listenerStop
deriving DecidableEq, Repr

/-- Whether an action is a `set_rover_controls` call. -/
def Act.isSend : Act → Bool
  | .sendControls _ _ _ => true
  | _ => false

/-- Cleanup executed after the loop of `px4_keyboard_drone_rover.py`
(lines 142-147): stop the listener, send the neutral full-brake command,
disarm, disable API control. -/
def shutdownPx4 : List Act :=
  [.listenerStop, .sendControls 0 0 1, .disarm, .disableApiControl]

/-- Cleanup executed after the loop of `px4_keyboard_drone_rover_chase.py`
(lines 385-392) when no call raises: same actions in the same order as the
non-chase variant. -/
def shutdownChase : List Act :=
  [.listenerStop, .sendControls 0 0 1, .disarm, .disableApiControl]

/-- Cleanup executed after the loop of `xbox_keyboard_drone_rover.py`
(lines 93-95): disarm, then disable API control.  No `set_rover_controls`
call occurs after the loop. -/
def shutdownXbox : List Act :=
  [.disarm, .disableApiControl]

/-- All vehicle-facing actions of one edge-set session that quits after
processing the key snapshots `ks`: the in-loop sends followed by the
cleanup. -/
def edgeSession (estep sstep : ℚ) (cleanup : List Act) (ks : List Keys) : List Act :=
  ((edgeSentCommands estep sstep initActuators ks).map
    fun a => Act.sendControls a.engine a.steer a.brake) ++ cleanup

/-- Commands sent during the polled loop over a list of per-tick buffered
keys. -/
def xboxSentCommands (st : XState) : List (Option XKey) → List Act
  | [] => []
  | k :: ks =>
    if st.running then
      let r := xboxTick st k
      (if r.2 then [Act.sendControls r.1.engine r.1.steer r.1.brake] else [])
        ++ xboxSentCommands r.1 ks
    else []

/-- All vehicle-facing actions of one polled-variant session over the
per-tick buffered keys `ks`: in-loop sends followed by the cleanup. -/
def xboxSession (ks : List (Option XKey)) : List Act :=
  xboxSentCommands initXState ks ++ shutdownXbox

/-- The last `set_rover_controls` action of an action list, if any. -/
def lastSend (l : List Act) : Option Act :=
  (l.filter Act.isSend).getLast?

/-- Bound invariant for a vehicle-facing action: a send carries engine and
steering in `[-1, 1]` and brake in `[0, 1]`; other actions carry no
fields. -/
def ActInBounds : Act → Prop
  | .sendControls e s b => -1 ≤ e ∧ e ≤ 1 ∧ -1 ≤ s ∧ s ≤ 1 ∧ 0 ≤ b ∧ b ≤ 1
  | _ => True

end Shutdown

section SendFailure

/-- Outcome of one tick of an edge-set loop when the per-tick
`set_rover_controls` call may raise.  `continued` carries the next state
and whether the failure was logged; `processExit` models the exception
escaping `rover_keyboard_loop`, being logged by the thread entry wrapper,
and `os._exit(1)` killing the process. -/
inductive SendOutcome
  | continued (st : Actuators) (logged : Bool)
  | processExit (logged : Bool)
deriving DecidableEq, Repr

/-- One tick of `px4_keyboard_drone_rover.py` when the send raises iff
`sendFails` is true: the loop body (lines 132-137) has no try/except, so
a raising send escapes the loop; `start_rover_keyboard_control` (lines
155-165) catches it, logs the error and calls `os._exit(1)`. -/
def px4FailTick (a : Actuators) (k : Keys) (sendFails : Bool) : SendOutcome :=
  let r := edgeTick ENGINE_STEP_px4 STEER_STEP_px4 a k
  if r.sent && sendFails then .processExit true
  else .continued r.state false

/-- One tick of `px4_keyboard_drone_rover_chase.py` when the send raises
iff `sendFails` is true: the send (lines 375-381) sits in
`try: ... except Exception as e: pass`, so the failure is swallowed
without logging and the loop continues. -/
def chaseFailTick (a : Actuators) (k : Keys) (sendFails : Bool) : SendOutcome :=
  let r := edgeTick ENGINE_STEP_chase STEER_STEP_chase a k
  let _ := sendFails
  .continued r.state false

end SendFailure

section Connection

/-- Client-session events of the phased connect/reconnect sequences.
Sessions are numbered in order of construction: the loader client is
session 0, the fresh post-settle client is session 1. -/
inductive ConnEvent
  | construct (sid : ℕ)
  | connect (sid : ℕ)
  | worldLoad (sid : ℕ)
  | settleWait (seconds : ℕ)
  | disconnect (sid : ℕ)
  | attachWorld (sid : ℕ)
deriving DecidableEq, Repr

/-- Whether a connection event uses the given session. -/
def usesSession (sid : ℕ) : ConnEvent → Bool
  | .construct s => s == sid
  | .connect s => s == sid
  | .worldLoad s => s == sid
  | .disconnect s => s == sid
  | .attachWorld s => s == sid
  | .settleWait _ => false

/-- Connection-phase trace of `main` in
`px4_keyboard_drone_rover_chase.py` (lines 413-448): construct and connect
the loader client, load the world through it, sleep 8 seconds, explicitly
disconnect the loader, construct a brand-new client, connect it, and
attach it to the world object. -/
def chaseConnTrace : List ConnEvent :=
  [.construct 0, .connect 0, .worldLoad 0, .settleWait 8, .disconnect 0,
   .construct 1, .connect 1, .attachWorld 1]

/-- Connection-phase trace of `main` in `client_inspect.py` (lines
16-36): the same phased sequence. -/
def inspectConnTrace : List ConnEvent :=
  [.construct 0, .connect 0, .worldLoad 0, .settleWait 8, .disconnect 0,
   .construct 1, .connect 1, .attachWorld 1]

/-- True when, after the first `disconnect sid` event of the trace, no
later event uses session `sid`. -/
def noUseAfterDisconnect (sid : ℕ) : List ConnEvent → Bool
  | [] => true
  | e :: rest =>
    if e == ConnEvent.disconnect sid then rest.all fun x => !usesSession sid x
    else noUseAfterDisconnect sid rest

/-- True when the first list occurs as a (not necessarily contiguous)
subsequence of the second. -/
def subseqOf : List ConnEvent → List ConnEvent → Bool
  | [], _ => true
  | _ :: _, [] => false
  | x :: xs, y :: ys => if x == y then subseqOf xs ys else subseqOf (x :: xs) ys

end Connection

section Verify

/-- True when the first list is an initial segment of the second
(character-by-character). -/
def leadsWith : List Char → List Char → Bool
  | [], _ => true
  | _ :: _, [] => false
  | p :: ps, c :: cs => p == c && leadsWith ps cs

/-- Python substring containment: `pat in s`. -/
def hasSub (pat : List Char) : List Char → Bool
  | [] => leadsWith pat []
  | c :: cs => leadsWith pat (c :: cs) || hasSub pat cs

/-- Outcome of the post-reconnect verification block
(`px4_keyboard_drone_rover_chase.py` lines 452-459): either the critical
diagnostic is logged, or the match count is logged as confirmation.  Both
branches fall through; nothing raises. -/
inductive VerifyOutcome
  | criticalLog
  | verifiedLog (count : ℕ)
deriving DecidableEq, Repr

/-- The verification step: filter the topic names containing the expected
identifier; log the critical diagnostic when the filtered list is empty,
else log its length. -/
def verifyTopics (topics : List (List Char)) (ident : List Char) : VerifyOutcome :=
  let matching := topics.filter fun t => hasSub ident t
  if matching.length = 0 then .criticalLog else .verifiedLog matching.length

end Verify

/-! ### Helper lemmas -/

theorem min_shift (c s t : ℚ) : min (c + s) t = c + min s (t - c) := by
  rw [← min_add_add_left c s (t - c)]
  congr 1
  ring

theorem max_shift (c s t : ℚ) : max (c - s) t = c - min s (c - t) := by
  rw [← max_sub_sub_left c s (c - t)]
  congr 1
  ring

/-- Closed form of one ramping branch: the value moves toward the target
by exactly `min step (distance)`. -/
theorem rampToward_eq (cur target step : ℚ) :
    rampToward cur target step =
      if cur < target then cur + min step (target - cur)
      else if cur > target then cur - min step (cur - target)
      else cur := by
  unfold rampToward
  split_ifs with h1 h2
  · exact min_shift cur step target
  · exact max_shift cur step target
  · rfl

/-- A ramp step never changes the value by more than `step`. -/
theorem abs_rampToward_sub_le (cur target step : ℚ) (h : 0 ≤ step) :
    |rampToward cur target step - cur| ≤ step := by
  rw [rampToward_eq]
  split_ifs with h1 h2
  · rw [show cur + min step (target - cur) - cur = min step (target - cur) by ring]
    rw [abs_of_nonneg (le_min h (by linarith))]
    exact min_le_left _ _
  · rw [show cur - min step (cur - target) - cur = -min step (cur - target) by ring]
    rw [abs_neg, abs_of_nonneg (le_min h (by linarith))]
    exact min_le_left _ _
  · simpa using h

/-- A ramp step stays inside `[-1, 1]` when both endpoint values do. -/
theorem rampToward_mem (cur target step : ℚ) (h : 0 ≤ step)
    (hc1 : -1 ≤ cur) (hc2 : cur ≤ 1) (ht1 : -1 ≤ target) (ht2 : target ≤ 1) :
    -1 ≤ rampToward cur target step ∧ rampToward cur target step ≤ 1 := by
  unfold rampToward
  split_ifs with h1 h2
  · exact ⟨le_min (by linarith) ht1, (min_le_right _ _).trans ht2⟩
  · exact ⟨le_trans ht1 (le_max_right _ _), max_le (by linarith) ht2⟩
  · exact ⟨hc1, hc2⟩

/-- When the ramp step is positive, the ramped value changes exactly when
the current value differs from the target. -/
theorem rampToward_ne_iff (cur target step : ℚ) (h : 0 < step) :
    rampToward cur target step ≠ cur ↔ cur ≠ target := by
  unfold rampToward
  split_ifs with h1 h2
  · constructor
    · intro _; exact ne_of_lt h1
    · intro _
      have : cur < min (cur + step) target := lt_min (by linarith) h1
      exact ne_of_gt this
  · constructor
    · intro _; exact ne_of_gt h2
    · intro _
      have : max (cur - step) target < cur := max_lt (by linarith) h2
      exact ne_of_lt this
  · have : cur = target := le_antisymm (not_lt.mp h2) (not_lt.mp h1)
    simp [this]

/-- Targets computed from held keys are always in range:
engine and steering targets in `[-1, 1]`, brake target in `[0, 1]`. -/
theorem targets_bounds (k : Keys) :
    -1 ≤ (targets k).1 ∧ (targets k).1 ≤ 1 ∧ -1 ≤ (targets k).2.1 ∧
      (targets k).2.1 ≤ 1 ∧ 0 ≤ (targets k).2.2 ∧ (targets k).2.2 ≤ 1 := by
  unfold targets
  rcases k with ⟨u, d, l, r, s⟩
  cases u <;> cases d <;> cases l <;> cases r <;> cases s <;> norm_num

/-- The edge-set loop body preserves the actuator bounds. -/
theorem edgeTick_inBounds (estep sstep : ℚ) (he : 0 ≤ estep) (hs : 0 ≤ sstep)
    (a : Actuators) (k : Keys) (ha : InBounds a) :
    InBounds (edgeTick estep sstep a k).state := by
  obtain ⟨h1, h2, h3, h4, h5, h6⟩ := ha
  obtain ⟨t1, t2, t3, t4, t5, t6⟩ := targets_bounds k
  have hE := rampToward_mem a.engine (targets k).1 estep he h1 h2 t1 t2
  have hS := rampToward_mem a.steer (targets k).2.1 sstep hs h3 h4 t3 t4
  exact ⟨hE.1, hE.2, hS.1, hS.2, t5, t6⟩

/-- Running the edge-set loop preserves the actuator bounds. -/
theorem edgeRun_inBounds (estep sstep : ℚ) (he : 0 ≤ estep) (hs : 0 ≤ sstep)
    (a : Actuators) (ha : InBounds a) (ks : List Keys) :
    InBounds (edgeRun estep sstep a ks) := by
  induction ks generalizing a with
  | nil => exact ha
  | cons k ks ih =>
    exact ih _ (edgeTick_inBounds estep sstep he hs a k ha)

/-- The chase-variant loop state stays in bounds for every tick count. -/
theorem chaseState_inBounds (n : ℕ) : InBounds (chaseState n) := by
  induction n with
  | zero =>
    refine ⟨?_, ?_, ?_, ?_, ?_, ?_⟩ <;> norm_num [chaseState, initActuators]
  | succ n ih =>
    have h : chaseState (n + 1) =
        (edgeTick ENGINE_STEP_chase STEER_STEP_chase (chaseState n) upOnly).state := by
      simp [chaseState, Function.iterate_succ_apply']
    rw [h]
    exact edgeTick_inBounds _ _ (by norm_num [ENGINE_STEP_chase])
      (by norm_num [STEER_STEP_chase]) _ _ ih

/-! ### Claim theorems -/

/-- C1: in every tick of the edge-set rover control loop, engine and
steering each move toward their target by exactly
`min(step, |target - current|)` — up if below the target, down if above,
unchanged if equal — so the per-tick change satisfies
`|engine_next - engine| ≤ ENGINE_STEP` and
`|steer_next - steer| ≤ STEER_STEP`. -/
theorem edge_tick_moves_by_min_step (estep sstep : ℚ) (he : 0 ≤ estep)
    (hs : 0 ≤ sstep) (a : Actuators) (k : Keys) :
    ((edgeTick estep sstep a k).state.engine =
        if a.engine < (targets k).1 then
          a.engine + min estep ((targets k).1 - a.engine)
        else if a.engine > (targets k).1 then
          a.engine - min estep (a.engine - (targets k).1)
        else a.engine) ∧
      ((edgeTick estep sstep a k).state.steer =
        if a.steer < (targets k).2.1 then
          a.steer + min sstep ((targets k).2.1 - a.steer)
        else if a.steer > (targets k).2.1 then
          a.steer - min sstep (a.steer - (targets k).2.1)
        else a.steer) ∧
      |(edgeTick estep sstep a k).state.engine - a.engine| ≤ estep ∧
      |(edgeTick estep sstep a k).state.steer - a.steer| ≤ sstep := by
  refine ⟨?_, ?_, ?_, ?_⟩
  · exact rampToward_eq a.engine (targets k).1 estep
  · exact rampToward_eq a.steer (targets k).2.1 sstep
  · exact abs_rampToward_sub_le a.engine (targets k).1 estep he
  · exact abs_rampToward_sub_le a.steer (targets k).2.1 sstep hs

/-- Witness for C1 at the chase-variant steps, the neutral state, and the
up arrow held. -/
theorem edge_tick_moves_by_min_step_witness :
    (0 : ℚ) ≤ ENGINE_STEP_chase ∧ (0 : ℚ) ≤ STEER_STEP_chase ∧
      |(edgeTick ENGINE_STEP_chase STEER_STEP_chase initActuators upOnly).state.engine
          - initActuators.engine| ≤ ENGINE_STEP_chase ∧
      |(edgeTick ENGINE_STEP_chase STEER_STEP_chase initActuators upOnly).state.steer
          - initActuators.steer| ≤ STEER_STEP_chase :=
  have h := edge_tick_moves_by_min_step ENGINE_STEP_chase STEER_STEP_chase
    (by norm_num [ENGINE_STEP_chase]) (by norm_num [STEER_STEP_chase])
    initActuators upOnly
  ⟨by norm_num [ENGINE_STEP_chase], by norm_num [STEER_STEP_chase], h.2.2.1, h.2.2.2⟩

/-- C3: when the brake key is held on a tick of the edge-set loop, brake
is set directly to 1 on that tick (regardless of its prior value, with no
ramping) and the engine and steering targets are forced to 0, while the
engine itself only moves one ramp step toward 0 — in particular, from an
engine value above one step it becomes `engine - step`, which is not 0. -/
theorem brake_direct_engine_ramped (estep sstep : ℚ) (he : 0 ≤ estep)
    (a : Actuators) (k : Keys) (hk : k.space = true) :
    targets k = (0, 0, 1) ∧
      (edgeTick estep sstep a k).state.brake = 1 ∧
      (edgeTick estep sstep a k).state.engine = rampToward a.engine 0 estep ∧
      (estep < a.engine →
        (edgeTick estep sstep a k).state.engine = a.engine - estep ∧
        (edgeTick estep sstep a k).state.engine ≠ 0) := by
  have ht : targets k = (0, 0, 1) := by
    simp [targets, hk]
  have hb : (edgeTick estep sstep a k).state.brake = 1 := by
    show (targets k).2.2 = 1
    rw [ht]
  have hE : (edgeTick estep sstep a k).state.engine =
      rampToward a.engine 0 estep := by
    show rampToward a.engine (targets k).1 estep = rampToward a.engine 0 estep
    rw [ht]
  refine ⟨ht, hb, hE, fun hlt => ?_⟩
  have h0 : 0 < a.engine := lt_of_le_of_lt he hlt
  have hr : rampToward a.engine 0 estep = a.engine - estep := by
    unfold rampToward
    rw [if_neg (not_lt.mpr h0.le), if_pos h0]
    exact max_eq_left (by linarith)
  rw [hE, hr]
  exact ⟨rfl, by intro hc; rw [sub_eq_zero] at hc; rw [hc] at hlt; linarith⟩

/-- Witness for C3: brake held while the chase-variant engine is 0.6. -/
theorem brake_direct_engine_ramped_witness :
    (0 : ℚ) ≤ ENGINE_STEP_chase ∧ spaceOnly.space = true ∧
      ENGINE_STEP_chase < (6 : ℚ) / 10 ∧
      (edgeTick ENGINE_STEP_chase STEER_STEP_chase ⟨6 / 10, 0, 0⟩
        spaceOnly).state.brake = 1 ∧
      (edgeTick ENGINE_STEP_chase STEER_STEP_chase ⟨6 / 10, 0, 0⟩
        spaceOnly).state.engine = 6 / 10 - ENGINE_STEP_chase ∧
      (edgeTick ENGINE_STEP_chase STEER_STEP_chase ⟨6 / 10, 0, 0⟩
        spaceOnly).state.engine ≠ 0 :=
  have h := brake_direct_engine_ramped ENGINE_STEP_chase STEER_STEP_chase
    (by norm_num [ENGINE_STEP_chase]) ⟨6 / 10, 0, 0⟩ spaceOnly rfl
  have hlt : ENGINE_STEP_chase < (6 : ℚ) / 10 := by norm_num [ENGINE_STEP_chase]
  ⟨by norm_num [ENGINE_STEP_chase], rfl, hlt, h.2.1, (h.2.2.2 hlt).1, (h.2.2.2 hlt).2⟩

/-- Closed form of the chase-variant engine ramp with the up arrow held:
after `n` ticks the engine is `min (n/50) 1`. -/
theorem chaseState_engine (n : ℕ) :
    (chaseState n).engine = min ((n : ℚ) / 50) 1 := by
  induction n with
  | zero => simp [chaseState, initActuators]
  | succ n ih =>
    have h : chaseState (n + 1) =
        (edgeTick ENGINE_STEP_chase STEER_STEP_chase (chaseState n) upOnly).state := by
      simp [chaseState, Function.iterate_succ_apply']
    rw [h]
    show rampToward (chaseState n).engine (targets upOnly).1 ENGINE_STEP_chase = _
    have htu : (targets upOnly).1 = 1 := rfl
    rw [htu, ih]
    rcases le_or_lt 1 ((n : ℚ) / 50) with hn | hn
    · rw [min_eq_right hn]
      have h1 : rampToward 1 1 ENGINE_STEP_chase = 1 := by
        unfold rampToward
        simp
      rw [h1, eq_comm]
      rw [min_eq_right]
      push_cast
      linarith
    · rw [min_eq_left hn.le]
      unfold rampToward
      rw [if_pos hn]
      have harg : (n : ℚ) / 50 + ENGINE_STEP_chase = ((n : ℚ) + 1) / 50 := by
        rw [show ENGINE_STEP_chase = 2 / 100 from rfl]
        ring
      rw [harg]
      push_cast
      rfl

/-- C9: with `ENGINE_STEP = 0.02` and the up arrow held from the neutral
state, the chase-variant engine reaches exactly 1 after 50 ticks and
never exceeds 1 on any tick. -/
theorem fifty_ticks_reach_one :
    (chaseState 50).engine = 1 ∧ ∀ n : ℕ, (chaseState n).engine ≤ 1 :=
  ⟨by rw [chaseState_engine]; norm_num,
   fun n => by rw [chaseState_engine]; exact min_le_right _ _⟩

/-- C10: in the polled single-key variant, the throttle keys W and S set
brake to 0 and adjust the engine by one clamped step, cancelling a held
brake, while the steering keys A and D leave brake unchanged. -/
theorem throttle_clears_brake (st : XState) :
    (xboxTick st (some XKey.w)).1.brake = 0 ∧
      (xboxTick st (some XKey.w)).1.engine =
        min (st.engine + ENGINE_STEP_xbox) ENGINE_MAX ∧
      (xboxTick st (some XKey.s)).1.brake = 0 ∧
      (xboxTick st (some XKey.s)).1.engine =
        max (st.engine - ENGINE_STEP_xbox) ENGINE_MIN ∧
      (xboxTick st (some XKey.a)).1.brake = st.brake ∧
      (xboxTick st (some XKey.d)).1.brake = st.brake :=
  ⟨rfl, rfl, rfl, rfl, rfl, rfl⟩

/-- C8: both phased connection sequences connect session 0, load the
world through it, wait the 8-second settle duration, explicitly
disconnect session 0, construct and connect the distinct fresh session 1
— in that order — and session 0 is never used after its disconnect. -/
theorem phased_reconnect_order :
    subseqOf [.connect 0, .worldLoad 0, .settleWait 8, .disconnect 0,
        .construct 1, .connect 1] chaseConnTrace = true ∧
      noUseAfterDisconnect 0 chaseConnTrace = true ∧
      subseqOf [.connect 0, .worldLoad 0, .settleWait 8, .disconnect 0,
        .construct 1, .connect 1] inspectConnTrace = true ∧
      noUseAfterDisconnect 0 inspectConnTrace = true := by
  decide

/-- Every element of a mapped send list is a send action. -/
theorem mem_mapSend {l : List Actuators} {x : Act}
    (hx : x ∈ l.map fun a => Act.sendControls a.engine a.steer a.brake) :
    x.isSend = true := by
  obtain ⟨a, -, rfl⟩ := List.mem_map.mp hx
  rfl

/-- A non-send action occurs zero times in a list of send actions. -/
theorem count_eq_zero_of_all_send {l : List Act}
    (hall : ∀ x ∈ l, Act.isSend x = true) (y : Act)
    (hy : Act.isSend y = false) : l.count y = 0 :=
  List.count_eq_zero.mpr fun hmem => by
    rw [hall y hmem] at hy
    exact Bool.noConfusion hy

/-- Every vehicle action emitted inside the polled loop is a send. -/
theorem xboxSent_all_send (st : XState) (ks : List (Option XKey)) :
    ∀ x ∈ xboxSentCommands st ks, Act.isSend x = true := by
  induction ks generalizing st with
  | nil => intro x hx; simp [xboxSentCommands] at hx
  | cons k ks ih =>
    intro x hx
    simp only [xboxSentCommands] at hx
    by_cases hr : st.running = true
    · rw [if_pos hr, List.mem_append] at hx
      rcases hx with hx | hx
      · by_cases hsend : (xboxTick st k).2 = true
        · rw [if_pos hsend, List.mem_singleton] at hx
          subst hx
          rfl
        · rw [if_neg hsend] at hx
          simp at hx
      · exact ih _ _ hx
    · rw [if_neg hr] at hx
      simp at hx

/-- Generic shutdown property of an edge-set session: with a cleanup block
whose only send is the neutral full stop and which disarms then disables
exactly once, the whole session's last send is the neutral full stop and
authority is released exactly once in order. -/
theorem edgeSession_parts (estep sstep : ℚ) (cleanup : List Act)
    (h1 : cleanup.filter Act.isSend = [Act.sendControls 0 0 1])
    (h2 : cleanup.count Act.disarm = 1)
    (h3 : cleanup.count Act.disableApiControl = 1)
    (h4 : [Act.disarm, Act.disableApiControl].Sublist cleanup)
    (ks : List Keys) :
    lastSend (edgeSession estep sstep cleanup ks) = some (Act.sendControls 0 0 1) ∧
      (edgeSession estep sstep cleanup ks).count Act.disarm = 1 ∧
      (edgeSession estep sstep cleanup ks).count Act.disableApiControl = 1 ∧
      [Act.disarm, Act.disableApiControl].Sublist (edgeSession estep sstep cleanup ks) := by
  have hall : ∀ x ∈ (edgeSentCommands estep sstep initActuators ks).map
      (fun a => Act.sendControls a.engine a.steer a.brake), Act.isSend x = true :=
    fun x hx => mem_mapSend hx
  refine ⟨?_, ?_, ?_, ?_⟩
  · unfold lastSend edgeSession
    rw [List.filter_append, List.filter_eq_self.mpr hall, h1, List.getLast?_concat]
  · unfold edgeSession
    rw [List.count_append, count_eq_zero_of_all_send hall Act.disarm rfl, h2]
  · unfold edgeSession
    rw [List.count_append, count_eq_zero_of_all_send hall Act.disableApiControl rfl, h3]
  · exact h4.trans (List.sublist_append_right _ _)

/-- Shutdown properties of a polled-variant session: authority released
exactly once, disarm before disable. -/
theorem xboxSession_parts (xs : List (Option XKey)) :
    (xboxSession xs).count Act.disarm = 1 ∧
      (xboxSession xs).count Act.disableApiControl = 1 ∧
      [Act.disarm, Act.disableApiControl].Sublist (xboxSession xs) := by
  have hall := xboxSent_all_send initXState xs
  refine ⟨?_, ?_, ?_⟩
  · unfold xboxSession
    rw [List.count_append, count_eq_zero_of_all_send hall Act.disarm rfl]
    rfl
  · unfold xboxSession
    rw [List.count_append, count_eq_zero_of_all_send hall Act.disableApiControl rfl]
    rfl
  · exact List.Sublist.trans (by decide) (List.sublist_append_right _ _)

/-- C2 counterexample: in the polled xbox variant, quitting after one
unmapped keypress leaves the all-zero command as the last one sent — the
final neutral full-brake command of the claim is never issued in that
variant. -/
theorem xbox_last_command_not_neutral :
    lastSend (xboxSession [some XKey.other, some XKey.q]) =
        some (Act.sendControls 0 0 0) ∧
      lastSend (xboxSession [some XKey.other, some XKey.q]) ≠
        some (Act.sendControls 0 0 1) := by
  have h : xboxSession [some XKey.other, some XKey.q] =
      [Act.sendControls 0 0 0, Act.disarm, Act.disableApiControl] := by
    simp [xboxSession, xboxSentCommands, xboxTick, initXState, shutdownXbox]
  rw [h]
  refine ⟨rfl, ?_⟩
  intro hc
  have : (0 : ℚ) = 1 := by
    have h2 := Option.some.inj hc
    exact congrArg (fun a => match a with
      | Act.sendControls _ _ b => b
      | _ => 0) h2
  norm_num at this

/-- C2 amended: in the two px4 edge-set variants, every session's last
command is `engine=0, steering=0, brake=1`, and authority is released
exactly once in the order disarm then disable_api_control; the polled
xbox variant also releases authority exactly once in that order, but its
cleanup sends no final neutral command. -/
theorem final_command_and_release (estep sstep : ℚ) :
    (∀ ks : List Keys,
        lastSend (edgeSession estep sstep shutdownPx4 ks) =
            some (Act.sendControls 0 0 1) ∧
          (edgeSession estep sstep shutdownPx4 ks).count Act.disarm = 1 ∧
          (edgeSession estep sstep shutdownPx4 ks).count Act.disableApiControl = 1 ∧
          [Act.disarm, Act.disableApiControl].Sublist
            (edgeSession estep sstep shutdownPx4 ks)) ∧
      (∀ ks : List Keys,
        lastSend (edgeSession estep sstep shutdownChase ks) =
            some (Act.sendControls 0 0 1) ∧
          (edgeSession estep sstep shutdownChase ks).count Act.disarm = 1 ∧
          (edgeSession estep sstep shutdownChase ks).count Act.disableApiControl = 1 ∧
          [Act.disarm, Act.disableApiControl].Sublist
            (edgeSession estep sstep shutdownChase ks)) ∧
      (∀ xs : List (Option XKey),
        (xboxSession xs).count Act.disarm = 1 ∧
          (xboxSession xs).count Act.disableApiControl = 1 ∧
          [Act.disarm, Act.disableApiControl].Sublist (xboxSession xs)) ∧
      shutdownXbox.filter Act.isSend = [] :=
  ⟨fun ks => edgeSession_parts estep sstep shutdownPx4 rfl rfl rfl (by decide) ks,
   fun ks => edgeSession_parts estep sstep shutdownChase rfl rfl rfl (by decide) ks,
   fun xs => xboxSession_parts xs, rfl⟩

/-- C5 counterexample: on the neutral-state tick where the brake key is
pressed, a raising send makes the non-chase px4 loop die and the whole
process exit (the failure is fatal, the loop does not continue), while
the chase loop continues but logs nothing. -/
theorem send_failure_counterexample :
    px4FailTick initActuators spaceOnly true = SendOutcome.processExit true ∧
      chaseFailTick initActuators spaceOnly true =
        SendOutcome.continued ⟨0, 0, 1⟩ false := by
  constructor
  · have hs : (edgeTick ENGINE_STEP_px4 STEER_STEP_px4 initActuators spaceOnly).sent
        = true := by
      simp [edgeTick, targets, rampToward, initActuators, spaceOnly]
    simp [px4FailTick, hs]
  · have h : (edgeTick ENGINE_STEP_chase STEER_STEP_chase initActuators
        spaceOnly).state = ⟨0, 0, 1⟩ := by
      simp [edgeTick, targets, rampToward, initActuators, spaceOnly]
    simp [chaseFailTick, h]

/-- C5 amended: in the chase variant a per-tick send failure is swallowed
silently (caught, not logged) and the loop continues with the ramped
state; in the non-chase px4 variant a send failure on a sending tick
escapes the loop, is logged by the thread wrapper, and terminates the
process, while a tick that sends nothing (or a send that succeeds)
continues normally. -/
theorem send_failure_behavior (a : Actuators) (k : Keys) (fails : Bool) :
    chaseFailTick a k fails =
        SendOutcome.continued
          (edgeTick ENGINE_STEP_chase STEER_STEP_chase a k).state false ∧
      ((edgeTick ENGINE_STEP_px4 STEER_STEP_px4 a k).sent = true →
        px4FailTick a k true = SendOutcome.processExit true) ∧
      ((edgeTick ENGINE_STEP_px4 STEER_STEP_px4 a k).sent = false →
        px4FailTick a k fails =
          SendOutcome.continued
            (edgeTick ENGINE_STEP_px4 STEER_STEP_px4 a k).state false) ∧
      px4FailTick a k false =
        SendOutcome.continued
          (edgeTick ENGINE_STEP_px4 STEER_STEP_px4 a k).state false := by
  refine ⟨rfl, ?_, ?_, ?_⟩
  · intro h
    simp [px4FailTick, h]
  · intro h
    simp [px4FailTick, h]
  · simp [px4FailTick]

/-- Witness for C5 amended at the brake-press tick from neutral. -/
theorem send_failure_behavior_witness :
    (edgeTick ENGINE_STEP_px4 STEER_STEP_px4 initActuators spaceOnly).sent = true ∧
      px4FailTick initActuators spaceOnly true = SendOutcome.processExit true := by
  have hs : (edgeTick ENGINE_STEP_px4 STEER_STEP_px4 initActuators spaceOnly).sent
      = true := by
    simp [edgeTick, targets, rampToward, initActuators, spaceOnly]
  exact ⟨hs, (send_failure_behavior initActuators spaceOnly true).2.1 hs⟩

/-- Definitional unfolding of the dispatch flag of the edge-set loop
body. -/
theorem edgeTick_sent_def (estep sstep : ℚ) (a : Actuators) (k : Keys) :
    (edgeTick estep sstep a k).sent =
      (((decide (a.engine < (targets k).1) || decide (a.engine > (targets k).1))
        || (decide (a.steer < (targets k).2.1) || decide (a.steer > (targets k).2.1))
        || decide (a.brake ≠ (targets k).2.2))
        || decide (|rampToward a.engine (targets k).1 estep| > 1 / 100)
        || decide (|rampToward a.steer (targets k).2.1 sstep| > 1 / 100)) := rfl

set_option maxHeartbeats 2000000 in
/-- C6: in each tick of the edge-set loop, a command is sent iff the ramp
step changed engine, steering, or brake, or the new engine or steering
magnitude exceeds 0.01. -/
theorem dispatch_condition (estep sstep : ℚ) (he : 0 < estep) (hs : 0 < sstep)
    (a : Actuators) (k : Keys) :
    (edgeTick estep sstep a k).sent = true ↔
      ((edgeTick estep sstep a k).state.engine ≠ a.engine ∨
        (edgeTick estep sstep a k).state.steer ≠ a.steer ∨
        (edgeTick estep sstep a k).state.brake ≠ a.brake ∨
        |(edgeTick estep sstep a k).state.engine| > 1 / 100 ∨
        |(edgeTick estep sstep a k).state.steer| > 1 / 100) := by
  rw [show (edgeTick estep sstep a k).state.engine =
      rampToward a.engine (targets k).1 estep from rfl,
    show (edgeTick estep sstep a k).state.steer =
      rampToward a.steer (targets k).2.1 sstep from rfl,
    show (edgeTick estep sstep a k).state.brake = (targets k).2.2 from rfl,
    edgeTick_sent_def]
  simp only [Bool.or_eq_true, decide_eq_true_eq]
  have h1 : (a.engine < (targets k).1 ∨ a.engine > (targets k).1) ↔
      rampToward a.engine (targets k).1 estep ≠ a.engine := by
    rw [rampToward_ne_iff _ _ _ he]
    exact ne_iff_lt_or_gt.symm
  have h2 : (a.steer < (targets k).2.1 ∨ a.steer > (targets k).2.1) ↔
      rampToward a.steer (targets k).2.1 sstep ≠ a.steer := by
    rw [rampToward_ne_iff _ _ _ hs]
    exact ne_iff_lt_or_gt.symm
  have h3 : (a.brake ≠ (targets k).2.2) ↔ (targets k).2.2 ≠ a.brake := ne_comm
  rw [h1, h2, h3]
  tauto

/-- Witness for C6: the brake-press tick from neutral is dispatched. -/
theorem dispatch_condition_witness :
    (edgeTick ENGINE_STEP_chase STEER_STEP_chase initActuators spaceOnly).sent
      = true :=
  (dispatch_condition ENGINE_STEP_chase STEER_STEP_chase
      (by norm_num [ENGINE_STEP_chase]) (by norm_num [STEER_STEP_chase])
      initActuators spaceOnly).mpr
    (Or.inr (Or.inr (Or.inl (show (1 : ℚ) ≠ 0 by norm_num))))

/-- A clamped upward step stays in `[-1, 1]`. -/
theorem clampUp_mem (x step : ℚ) (hx : -1 ≤ x) (hstep : 0 ≤ step) :
    -1 ≤ min (x + step) 1 ∧ min (x + step) 1 ≤ 1 :=
  ⟨le_min (by linarith) (by norm_num), min_le_right _ _⟩

/-- A clamped downward step stays in `[-1, 1]`. -/
theorem clampDown_mem (x step : ℚ) (hx : x ≤ 1) (hstep : 0 ≤ step) :
    -1 ≤ max (x - step) (-1) ∧ max (x - step) (-1) ≤ 1 :=
  ⟨le_max_right _ _, max_le (by linarith) (by norm_num)⟩

/-- The polled loop body preserves the actuator bounds. -/
theorem xboxTick_inBounds (st : XState) (h : XInBounds st) (k : Option XKey) :
    XInBounds (xboxTick st k).1 := by
  obtain ⟨h1, h2, h3, h4, h5, h6⟩ := h
  have hex : (0 : ℚ) ≤ ENGINE_STEP_xbox := by norm_num [ENGINE_STEP_xbox]
  have hsx : (0 : ℚ) ≤ STEER_STEP_xbox := by norm_num [STEER_STEP_xbox]
  rcases k with _ | kk
  · exact ⟨h1, h2, h3, h4, h5, h6⟩
  · cases kk with
    | w =>
      exact ⟨(clampUp_mem st.engine ENGINE_STEP_xbox h1 hex).1,
        (clampUp_mem st.engine ENGINE_STEP_xbox h1 hex).2, h3, h4,
        le_refl 0, zero_le_one⟩
    | s =>
      exact ⟨(clampDown_mem st.engine ENGINE_STEP_xbox h2 hex).1,
        (clampDown_mem st.engine ENGINE_STEP_xbox h2 hex).2, h3, h4,
        le_refl 0, zero_le_one⟩
    | a =>
      exact ⟨h1, h2, (clampDown_mem st.steer STEER_STEP_xbox h4 hsx).1,
        (clampDown_mem st.steer STEER_STEP_xbox h4 hsx).2, h5, h6⟩
    | d =>
      exact ⟨h1, h2, (clampUp_mem st.steer STEER_STEP_xbox h3 hsx).1,
        (clampUp_mem st.steer STEER_STEP_xbox h3 hsx).2, h5, h6⟩
    | space =>
      exact ⟨show (-1 : ℚ) ≤ 0 by norm_num, show (0 : ℚ) ≤ 1 by norm_num,
        h3, h4, show (0 : ℚ) ≤ 1 by norm_num, le_refl 1⟩
    | zero =>
      exact ⟨show (-1 : ℚ) ≤ 0 by norm_num, show (0 : ℚ) ≤ 1 by norm_num,
        show (-1 : ℚ) ≤ 0 by norm_num, show (0 : ℚ) ≤ 1 by norm_num,
        le_refl 0, zero_le_one⟩
    | q => exact ⟨h1, h2, h3, h4, h5, h6⟩
    | other => exact ⟨h1, h2, h3, h4, h5, h6⟩

/-- Running the polled loop preserves the actuator bounds. -/
theorem xboxRun_inBounds (st : XState) (h : XInBounds st)
    (ks : List (Option XKey)) : XInBounds (xboxRun st ks) := by
  induction ks generalizing st with
  | nil => exact h
  | cons k ks ih =>
    show XInBounds (if st.running then xboxRun (xboxTick st k).1 ks else st)
    split
    · exact ih _ (xboxTick_inBounds st h k)
    · exact h

/-- Every command dispatched by the edge-set loop is in bounds when the
loop starts in bounds. -/
theorem edgeSentCommands_inBounds (estep sstep : ℚ) (he : 0 ≤ estep)
    (hs : 0 ≤ sstep) (ks : List Keys) :
    ∀ a : Actuators, InBounds a →
      ∀ c ∈ edgeSentCommands estep sstep a ks, InBounds c := by
  induction ks with
  | nil => intro a ha c hc; simp [edgeSentCommands] at hc
  | cons k ks ih =>
    intro a ha c hc
    simp only [edgeSentCommands] at hc
    rw [List.mem_append] at hc
    rcases hc with hc | hc
    · by_cases hsent : (edgeTick estep sstep a k).sent = true
      · rw [if_pos hsent, List.mem_singleton] at hc
        exact hc ▸ edgeTick_inBounds estep sstep he hs a k ha
      · rw [if_neg hsent] at hc
        simp at hc
    · exact ih _ (edgeTick_inBounds estep sstep he hs a k ha) c hc

/-- Every command dispatched inside the polled loop is in bounds when the
loop starts in bounds. -/
theorem xboxSentCommands_bounds (ks : List (Option XKey)) :
    ∀ st : XState, XInBounds st → ∀ x ∈ xboxSentCommands st ks, ActInBounds x := by
  induction ks with
  | nil => intro st h x hx; simp [xboxSentCommands] at hx
  | cons k ks ih =>
    intro st h x hx
    simp only [xboxSentCommands] at hx
    by_cases hr : st.running = true
    · rw [if_pos hr, List.mem_append] at hx
      rcases hx with hx | hx
      · by_cases hsend : (xboxTick st k).2 = true
        · rw [if_pos hsend, List.mem_singleton] at hx
          subst hx
          obtain ⟨b1, b2, b3, b4, b5, b6⟩ := xboxTick_inBounds st h k
          exact ⟨b1, b2, b3, b4, b5, b6⟩
        · rw [if_neg hsend] at hx
          simp at hx
      · exact ih _ (xboxTick_inBounds st h k) x hx
    · rw [if_neg hr] at hx
      simp at hx

/-- C4: from the neutral initial state, the actuator values of every
variant of the rover control loop stay within bounds on every tick
(engine and steering in `[-1, 1]`, brake in `[0, 1]`), and every command
dispatched by any variant is within those bounds. -/
theorem actuator_bounds :
    (∀ ks : List Keys,
        InBounds (edgeRun ENGINE_STEP_px4 STEER_STEP_px4 initActuators ks) ∧
          InBounds (edgeRun ENGINE_STEP_chase STEER_STEP_chase initActuators ks)) ∧
      (∀ ks : List Keys,
        ∀ c ∈ edgeSentCommands ENGINE_STEP_px4 STEER_STEP_px4 initActuators ks,
          InBounds c) ∧
      (∀ ks : List Keys,
        ∀ c ∈ edgeSentCommands ENGINE_STEP_chase STEER_STEP_chase initActuators ks,
          InBounds c) ∧
      (∀ xs : List (Option XKey), XInBounds (xboxRun initXState xs)) ∧
      (∀ xs : List (Option XKey),
        ∀ x ∈ xboxSentCommands initXState xs, ActInBounds x) := by
  have hinit : InBounds initActuators := by
    refine ⟨?_, ?_, ?_, ?_, ?_, ?_⟩ <;> norm_num [initActuators]
  have hxinit : XInBounds initXState := by
    refine ⟨?_, ?_, ?_, ?_, ?_, ?_⟩ <;> norm_num [initXState]
  refine ⟨fun ks => ⟨?_, ?_⟩, fun ks => ?_, fun ks => ?_, fun xs => ?_, fun xs => ?_⟩
  · exact edgeRun_inBounds _ _ (by norm_num [ENGINE_STEP_px4])
      (by norm_num [STEER_STEP_px4]) _ hinit ks
  · exact edgeRun_inBounds _ _ (by norm_num [ENGINE_STEP_chase])
      (by norm_num [STEER_STEP_chase]) _ hinit ks
  · exact edgeSentCommands_inBounds _ _ (by norm_num [ENGINE_STEP_px4])
      (by norm_num [STEER_STEP_px4]) ks initActuators hinit
  · exact edgeSentCommands_inBounds _ _ (by norm_num [ENGINE_STEP_chase])
      (by norm_num [STEER_STEP_chase]) ks initActuators hinit
  · exact xboxRun_inBounds initXState hxinit xs
  · exact xboxSentCommands_bounds xs initXState hxinit

/-- Witness for C4: the brake command dispatched on a brake-press tick
from neutral is a member of the dispatched-command list and in bounds. -/
theorem actuator_bounds_witness :
    Actuators.mk 0 0 1 ∈
        edgeSentCommands ENGINE_STEP_px4 STEER_STEP_px4 initActuators [spaceOnly] ∧
      InBounds (Actuators.mk 0 0 1) := by
  have h : edgeTick ENGINE_STEP_px4 STEER_STEP_px4 initActuators spaceOnly =
      ⟨⟨0, 0, 1⟩, true, true⟩ := by
    simp [edgeTick, targets, rampToward, initActuators, spaceOnly]
  have hm : Actuators.mk 0 0 1 ∈
      edgeSentCommands ENGINE_STEP_px4 STEER_STEP_px4 initActuators [spaceOnly] := by
    simp [edgeSentCommands, h]
  exact ⟨hm, actuator_bounds.2.1 [spaceOnly] _ hm⟩

/-- An initial-segment test succeeds exactly on initial segments. -/
theorem leadsWith_iff (p s : List Char) :
    leadsWith p s = true ↔ ∃ t, s = p ++ t := by
  induction p generalizing s with
  | nil => simp [leadsWith]
  | cons a p ih =>
    cases s with
    | nil => simp [leadsWith]
    | cons c cs =>
      simp only [leadsWith, Bool.and_eq_true, beq_iff_eq]
      rw [ih]
      constructor
      · rintro ⟨hac, t, hct⟩
        subst hac
        exact ⟨t, by rw [hct, List.cons_append]⟩
      · rintro ⟨t, ht⟩
        rw [List.cons_append] at ht
        injection ht with ha hb
        exact ⟨ha.symm, t, hb⟩

/-- The substring test succeeds exactly when the pattern occurs as a
contiguous substring. -/
theorem hasSub_iff (pat s : List Char) :
    hasSub pat s = true ↔ ∃ u v, s = u ++ pat ++ v := by
  induction s with
  | nil =>
    simp only [hasSub]
    rw [leadsWith_iff]
    constructor
    · rintro ⟨t, ht⟩
      rcases List.append_eq_nil.mp ht.symm with ⟨hp, hv⟩
      exact ⟨[], [], by simp [hp]⟩
    · rintro ⟨u, v, huv⟩
      rcases List.append_eq_nil.mp huv.symm with ⟨hu, hv⟩
      rcases List.append_eq_nil.mp hu with ⟨hu2, hp⟩
      exact ⟨[], by simp [hp]⟩
  | cons c cs ih =>
    simp only [hasSub, Bool.or_eq_true]
    rw [leadsWith_iff, ih]
    constructor
    · rintro (⟨t, ht⟩ | ⟨u, v, huv⟩)
      · exact ⟨[], t, by simpa using ht⟩
      · exact ⟨c :: u, v, by simp [huv]⟩
    · rintro ⟨u, v, huv⟩
      cases u with
      | nil => exact Or.inl ⟨v, by simpa using huv⟩
      | cons x u =>
        rw [List.cons_append] at huv
        injection huv with hx hrest
        exact Or.inr ⟨u, v, hrest⟩

/-- C7: the post-reconnect verification counts exactly the endpoint names
containing the expected identifier; a zero count produces the critical
diagnostic (and nothing raises), a positive count N produces the
confirmation log carrying N. -/
theorem reconnect_verification (topics : List (List Char)) (ident : List Char) :
    (∀ t ∈ topics, (hasSub ident t = true ↔ ∃ u v, t = u ++ ident ++ v)) ∧
      ((topics.filter fun t => hasSub ident t).length = 0 →
        verifyTopics topics ident = .criticalLog) ∧
      (0 < (topics.filter fun t => hasSub ident t).length →
        verifyTopics topics ident =
          .verifiedLog (topics.filter fun t => hasSub ident t).length) := by
  refine ⟨fun t _ => hasSub_iff ident t, fun h => ?_, fun h => ?_⟩
  · simp only [verifyTopics]
    rw [if_pos h]
  · simp only [verifyTopics]
    rw [if_neg (by omega)]

/-- Witness for C7 at a two-topic list with one match and at a
zero-match list. -/
theorem reconnect_verification_witness :
    verifyTopics [['R','o','v','e','r','1','x'], ['D','r','o','n','e']]
        ['R','o','v','e','r','1'] =
      .verifiedLog (([['R','o','v','e','r','1','x'], ['D','r','o','n','e']].filter
        fun t => hasSub ['R','o','v','e','r','1'] t).length) ∧
      verifyTopics [['D','r','o','n','e']] ['R','o','v','e','r','1'] =
        .criticalLog :=
  ⟨(reconnect_verification [['R','o','v','e','r','1','x'], ['D','r','o','n','e']]
      ['R','o','v','e','r','1']).2.2 (by decide),
   (reconnect_verification [['D','r','o','n','e']]
      ['R','o','v','e','r','1']).2.1 (by decide)⟩

end RoverTeleop
